import Mathlib

set_option maxRecDepth 20000

namespace OptiMaint

/-! Shallow embedding of `src/routes/analyze_logs.py` (log error-grouping and
normalization engine).  Strings are modelled as `List Char`; each regular
expression used by the source is hand-compiled into an explicit matcher that
follows Python `re` semantics (leftmost scan, greedy quantifiers with
backtracking resolved into closed form, `\b` word boundaries).  Matching is
modelled on the ASCII range, which covers the log text the engine handles. -/

abbrev Chars := List Char

/-- ASCII word character, modelling Python regex `\w` on ASCII text:
letters, digits or underscore. -/
def isWordChar (c : Char) : Bool := c.isAlphanum || c == '_'

/-- Python `\s` in the ASCII range: space, tab, newline, carriage return,
vertical tab, form feed. -/
def isSpaceChar (c : Char) : Bool :=
  c == ' ' || c == '\t' || c == '\n' || c == '\r' || c == '\x0b' || c == '\x0c'

/-- Word-character test on an optional character; `none` (start or end of the
string) counts as a non-word position, as in Python `re`. -/
def optWord : Option Char → Bool
  | none => false
  | some c => isWordChar c

/-- Consume exactly `n` digits (regex `\d{n}`), returning the rest. -/
def matchNDigits : Nat → Chars → Option Chars
  | 0, s => some s
  | _ + 1, [] => none
  | n + 1, c :: cs => if c.isDigit then matchNDigits n cs else none

/-- Consume one literal character. -/
def litChar (c : Char) : Chars → Option Chars
  | [] => none
  | x :: xs => if x == c then some xs else none

/-- Consume a literal character sequence. -/
def litSeq : Chars → Chars → Option Chars
  | [], s => some s
  | _ :: _, [] => none
  | w :: ws, c :: cs => if c == w then litSeq ws cs else none

/-- Consume one character from an allowed set (regex character class). -/
def charIn (good : List Char) : Chars → Option Chars
  | [] => none
  | c :: cs => if good.contains c then some cs else none

/-- Length of the maximal prefix satisfying `p` (greedy run). -/
def runOf (p : Char → Bool) : Chars → Nat
  | [] => 0
  | c :: cs => if p c then runOf p cs + 1 else 0

/-- Length of the maximal digit prefix. -/
def digitRun (s : Chars) : Nat := runOf Char.isDigit s

/-- One normalization matcher: given the previous character (for `\b`) and the
remaining text, return the length of a match starting here, if any. -/
abbrev Matcher := Option Char → Chars → Option Nat

/-- Re-implementation of `re.sub` for the matchers used here: scan left to
right, replace each non-overlapping match, resume after the match.  `fuel` is
an upper bound on the number of scan steps (the input length suffices since
every pattern used consumes at least one character). -/
def substFuel (m : Matcher) (repl : Chars) : Nat → Option Char → Chars → Chars
  | 0, _, s => s
  | _ + 1, _, [] => []
  | fuel + 1, prev, c :: cs =>
    match m prev (c :: cs) with
    | some (n + 1) =>
      match (c :: cs).drop n with
      | [] => repl
      | x :: rest => repl ++ substFuel m repl fuel (some x) rest
    | _ => c :: substFuel m repl fuel (some c) cs

/-- `re.sub(pattern, repl, s)` for one compiled pattern. -/
def pysub (m : Matcher) (repl : Chars) (s : Chars) : Chars :=
  substFuel m repl s.length none s

/-! Hand-compiled matchers for the nine `NORMALIZERS` patterns of the source. -/

/-- Shared core of the timestamp pattern:
`\d{4}-\d{2}-\d{2}[ T]\d{2}:\d{2}:\d{2}`. -/
def mTimestampCore (s : Chars) : Option Chars :=
  matchNDigits 4 s >>= litChar '-' >>= matchNDigits 2 >>= litChar '-' >>=
    matchNDigits 2 >>= charIn [' ', 'T'] >>= matchNDigits 2 >>= litChar ':' >>=
    matchNDigits 2 >>= litChar ':' >>= matchNDigits 2

/-- Rule 1: `\d{4}-\d{2}-\d{2}[ T]\d{2}:\d{2}:\d{2}(?:,\d+)?` (no `\b`). -/
def mTimestamp (_prev : Option Char) (s : Chars) : Option Nat :=
  match mTimestampCore s with
  | none => none
  | some r =>
    match r with
    | ',' :: r2 =>
      if 0 < digitRun r2 then some (s.length - r2.length + digitRun r2)
      else some (s.length - r.length)
    | _ => some (s.length - r.length)

/-- Rule 2: `\b\d{2}:\d{2}:\d{2}\b`.  The leading `\b` precedes a digit (a
word character), hence holds exactly when the previous character is
non-word; the trailing `\b` follows a digit, hence holds exactly when the
next character is non-word or absent. -/
def mTime (prev : Option Char) (s : Chars) : Option Nat :=
  if optWord prev then none
  else
    match (matchNDigits 2 s >>= litChar ':' >>= matchNDigits 2 >>= litChar ':' >>=
        matchNDigits 2) with
    | none => none
    | some r => if optWord r.head? then none else some (s.length - r.length)

/-- Rule 3: `\b\d+\b`.  Greedy `\d+` with a trailing `\b` succeeds only on the
maximal digit run (shorter prefixes are followed by a digit, a word
character, so their trailing `\b` fails). -/
def mNum (prev : Option Char) (s : Chars) : Option Nat :=
  if optWord prev then none
  else
    let n := digitRun s
    if 0 < n && !optWord (s.drop n).head? then some n else none

/-- Hexadecimal digit as in the class `[0-9a-fA-F]`. -/
def isHexChar (c : Char) : Bool :=
  c.isDigit || ('a' ≤ c && c ≤ 'f') || ('A' ≤ c && c ≤ 'F')

/-- Rule 4: `0x[0-9a-fA-F]+` (no `\b`; greedy run, nothing follows). -/
def mHex (_prev : Option Char) (s : Chars) : Option Nat :=
  match s with
  | '0' :: 'x' :: rest =>
    let n := runOf isHexChar rest
    if 0 < n then some (2 + n) else none
  | _ => none

/-- One `\d{1,3}\.` component of the IPv4 pattern: since `.` is not a digit,
greedy `\d{1,3}` can only succeed by taking the whole digit run, which must
have length 1 to 3 and be followed by a literal dot. -/
def ipGroupDot (s : Chars) : Option Chars :=
  let n := digitRun s
  if 1 ≤ n && n ≤ 3 then litChar '.' (s.drop n) else none

/-- Rule 5: `\b(?:\d{1,3}\.){3}\d{1,3}\b`. -/
def mIp (prev : Option Char) (s : Chars) : Option Nat :=
  if optWord prev then none
  else
    match (ipGroupDot s >>= ipGroupDot >>= ipGroupDot) with
    | none => none
    | some r =>
      let n := digitRun r
      if 1 ≤ n && n ≤ 3 && !optWord ((r.drop n).head?) then
        some (s.length - r.length + n)
      else none

/-- Second alternative of rule 6: `/[^\s]+`. -/
def mPathSlash : Chars → Option Nat
  | '/' :: rest =>
    let n := runOf (fun c => !isSpaceChar c) rest
    if 0 < n then some (1 + n) else none
  | _ => none

/-- Rule 6: `[A-Za-z]:\\[^\s]+|/[^\s]+` (alternation tried left to right). -/
def mPath (_prev : Option Char) (s : Chars) : Option Nat :=
  match s with
  | a :: ':' :: '\\' :: rest =>
    if a.isAlpha then
      let n := runOf (fun c => !isSpaceChar c) rest
      if 0 < n then some (3 + n) else mPathSlash s
    else mPathSlash s
  | _ => mPathSlash s

/-- Rule 7: `\bPID=\d+\b`. -/
def mPid (prev : Option Char) (s : Chars) : Option Nat :=
  if optWord prev then none
  else
    match litSeq "PID=".data s with
    | none => none
    | some rest =>
      let n := digitRun rest
      if 0 < n && !optWord ((rest.drop n).head?) then some (4 + n) else none

/-- Rule 8: `\bthread-\d+\b`. -/
def mThread (prev : Option Char) (s : Chars) : Option Nat :=
  if optWord prev then none
  else
    match litSeq "thread-".data s with
    | none => none
    | some rest =>
      let n := digitRun rest
      if 0 < n && !optWord ((rest.drop n).head?) then some (7 + n) else none

/-- Rule 9: `\s+` (collapse whitespace runs). -/
def mSpaceRun (_prev : Option Char) (s : Chars) : Option Nat :=
  let n := runOf isSpaceChar s
  if 0 < n then some n else none

/-- The ordered substitution table `NORMALIZERS` of the source. -/
def NORMALIZERS : List (Matcher × Chars) :=
  [(mTimestamp, "<TIMESTAMP>".data), (mTime, "<TIME>".data), (mNum, "<NUM>".data),
   (mHex, "<HEX>".data), (mIp, "<IP>".data), (mPath, "<PATH>".data),
   (mPid, "PID=<NUM>".data), (mThread, "thread-<NUM>".data), (mSpaceRun, " ".data)]

/-- Python `str.strip()` (ASCII whitespace). -/
def pyStrip (s : Chars) : Chars :=
  ((s.dropWhile isSpaceChar).reverse.dropWhile isSpaceChar).reverse

/-- Source `normalize_message`: apply the nine substitution rules in order,
then strip. -/
def normalize_message (msg : String) : String :=
  String.mk (pyStrip (NORMALIZERS.foldl (fun t r => pysub r.1 r.2 t) msg.data))

/-! Error-line detection (`ERROR_PATTERNS` and the `any(p.search(line) ...)`
test of `parse_log_file`).  The `.*` tails of the source patterns never affect
whether a match exists, so the matchers omit them. -/

/-- Scan for a match position, threading the previous character for `\b`. -/
def searchAux (m : Matcher) : Option Char → Chars → Bool
  | prev, [] => (m prev []).isSome
  | prev, c :: cs => (m prev (c :: cs)).isSome || searchAux m (some c) cs

/-- Python `pattern.search(s) is not None`. -/
def reSearch (m : Matcher) (s : Chars) : Bool :=
  searchAux m none s

/-- Compiled `\bW\b.*` for a word `W` made of letters: the leading `\b` holds
exactly when the previous character is non-word, the trailing one exactly when
the next character is non-word or absent. -/
def mWholeWord (w : Chars) (prev : Option Char) (s : Chars) : Option Nat :=
  if optWord prev then none
  else
    match litSeq w s with
    | none => none
    | some rest => if optWord rest.head? then none else some w.length

/-- Compiled `Traceback \(most recent call last\):.*`. -/
def mTraceback (_prev : Option Char) (s : Chars) : Option Nat :=
  match litSeq "Traceback (most recent call last):".data s with
  | none => none
  | some _ => some 34

/-- Compiled `\bCaused by:\b.*`: the trailing `\b` follows the non-word `:`
and therefore requires a word character right after the colon. -/
def mCausedBy (prev : Option Char) (s : Chars) : Option Nat :=
  if optWord prev then none
  else
    match litSeq "Caused by:".data s with
    | none => none
    | some rest => if optWord rest.head? then some 10 else none

/-- The compiled `ERROR_PATTERNS` list of the source. -/
def ERROR_MATCHERS : List Matcher :=
  [mWholeWord "ERROR".data, mWholeWord "Exception".data, mWholeWord "FATAL".data,
   mWholeWord "SEVERE".data, mTraceback, mCausedBy]

/-- Source test `any(p.search(line) for p in compiled_patterns)`. -/
def isErrorLine (line : String) : Bool :=
  ERROR_MATCHERS.any fun m => reSearch m line.data

/-- Source `stable_signature`: `re.sub(r"[^a-zA-Z0-9]", "_", text)[:50]`. -/
def stable_signature (text : String) : String :=
  String.mk ((text.data.map fun c => if c.isAlphanum then c else '_').take 50)

/-- The line window selected by `get_context`:
`lines[max(0, index - before) : min(len(lines), index + after + 1)]`
(truncated `Nat` subtraction is exactly `max(0, index - before)`). -/
def contextSlice (lines : List String) (index before after : Nat) : List String :=
  (lines.drop (index - before)).take
    (min lines.length (index + after + 1) - (index - before))

/-- Source `get_context`: the window joined with newlines. -/
def get_context (lines : List String) (index before after : Nat) : String :=
  String.intercalate "\n" (contextSlice lines index before after)

/-- One occurrence record appended per matched line. -/
structure Occurrence where
  original_message : String
  lineNumber : Nat
  context : String
deriving DecidableEq, Repr

/-- One group per distinct signature, as built by `parse_log_file`. -/
structure ErrorGroup where
  type : String
  representative_message : String
  examples : List Occurrence
  count : Nat
  severity : String
  solution : Option String
deriving DecidableEq, Repr

/-- Python `line.rstrip("\n")`. -/
def pyRstripNewline (s : String) : String :=
  String.mk ((s.data.reverse.dropWhile fun c => c == '\n').reverse)

/-- Python `line.strip()`. -/
def pyStripStr (s : String) : String := String.mk (pyStrip s.data)

/-- Insert an occurrence into the insertion-ordered group list: update the
group with this signature, or append a fresh group at the end (Python dicts
preserve insertion order). -/
def addOccurrence (sig stripped : String) (ln : Nat) (ctx : String) :
    List ErrorGroup → List ErrorGroup
  | [] => [⟨sig, stripped, [⟨stripped, ln, ctx⟩], 1, "MEDIUM", none⟩]
  | g :: gs =>
    if g.type == sig then
      { g with count := g.count + 1,
               examples := g.examples ++ [⟨stripped, ln, ctx⟩] } :: gs
    else g :: addOccurrence sig stripped ln ctx gs

/-- Loop body of `parse_log_file` for line index `i`. -/
def parseStep (lines : List String) (gs : List ErrorGroup) (i : Nat) :
    List ErrorGroup :=
  let line := pyRstripNewline ((lines[i]?.getD ""))
  if isErrorLine line then
    addOccurrence (stable_signature (normalize_message line)) (pyStripStr line)
      (i + 1) (get_context lines i 3 3) gs
  else gs

/-- Group state after processing the first `n` lines of the file. -/
def parseUpTo (lines : List String) : Nat → List ErrorGroup
  | 0 => []
  | n + 1 => parseStep lines (parseUpTo lines n) n

/-- Source `parse_log_file` on the file's lines (`readlines` output). -/
def parse_log_file (lines : List String) : List ErrorGroup :=
  parseUpTo lines lines.length

/-- Python truthiness of the optional integer query parameters. -/
def pyTruthy : Option Int → Bool
  | none => false
  | some m => m != 0

/-- Python `l[:k]` for an integer `k` (negative `k` counts from the end). -/
def pySliceTo (k : Int) (l : List ErrorGroup) : List ErrorGroup :=
  if 0 ≤ k then l.take k.toNat else l.take (l.length - (-k).toNat)

/-- Stable descending insertion by `count`: walk past strictly larger counts,
so an element is placed before every equal-count element inserted earlier
(which came later in the original list). -/
def insertByCountDesc (g : ErrorGroup) : List ErrorGroup → List ErrorGroup
  | [] => [g]
  | h :: t => if g.count < h.count then h :: insertByCountDesc g t else g :: h :: t

/-- Python `groups.sort(key=lambda g: g["count"], reverse=True)` — the stable
descending sort by count. -/
def sortGroupsDesc (gs : List ErrorGroup) : List ErrorGroup :=
  gs.foldr insertByCountDesc []

/-- Post-processing of `process_log_file`: truthiness-guarded min-count
filter, stable descending sort, truthiness-guarded top-k slice. -/
def postProcess (gs : List ErrorGroup) (min_count top_k : Option Int) :
    List ErrorGroup :=
  let gs1 :=
    if pyTruthy min_count then
      gs.filter fun g => min_count.getD 0 ≤ (g.count : Int)
    else gs
  let gs2 := sortGroupsDesc gs1
  if pyTruthy top_k then pySliceTo (top_k.getD 0) gs2 else gs2

/-- Answer record returned by the LLM client. -/
structure GeminiAnswer where
  reformulated : String
  solution : String
deriving DecidableEq, Repr

/-- Outcome of the guarded body of `suggest_solution`: the network call and
JSON handling either raise (any exception, caught by the bare `except`),
return text without a `{...}` block, or produce a validated answer. -/
inductive GenerateOutcome where
  | raised (e : String)
  | textWithoutJson (text : String)
  | parsedJson (ans : GeminiAnswer)
deriving DecidableEq, Repr

/-- Fallback answer when the client is disabled (no API key or library). -/
def disabledAnswer : GeminiAnswer :=
  ⟨"⚠ Gemini désactivé, impossible de reformuler.",
   "⚠ Vérifier la clé API et l\x27installation de la librairie."⟩

/-- Fallback answer when the response text holds no JSON object. -/
def noJsonAnswer : GeminiAnswer :=
  ⟨"Aucune reformulation reçue", "Vérifier le message et le contexte manuellement"⟩

/-- Fallback answer built by the `except` handler. -/
def failureAnswer (e : String) : GeminiAnswer :=
  ⟨"Échec Gemini: " ++ e, "Échec Gemini: " ++ e⟩

/-- Source `GeminiClient.suggest_solution` as a total function of the client
state and the call outcome: every branch returns an answer, none re-raises. -/
def suggest_solution (enabled : Bool) (outcome : GenerateOutcome) : GeminiAnswer :=
  if enabled then
    match outcome with
    | .raised e => failureAnswer e
    | .textWithoutJson _ => noJsonAnswer
    | .parsedJson ans => ans
  else disabledAnswer

/-- Enrichment step of `process_log_file`: overwrite the representative
message with the reformulation and set the solution. -/
def enrichGroup (ans : GeminiAnswer) (g : ErrorGroup) : ErrorGroup :=
  { g with representative_message := ans.reformulated,
           solution := some ans.solution }

/-! Auxiliary definitions used to state the claims. -/

/-- Character just before position `i`, or `none` at the start of the string. -/
def prevCharAt (s : Chars) (i : Nat) : Option Char :=
  if i = 0 then none else s[i - 1]?

/-- Position-indexed statement that the word `w` occurs at index `i` of `s`
delimited by word boundaries on both sides. -/
def wordOccursAt (w s : Chars) (i : Nat) : Bool :=
  !optWord (prevCharAt s i) && ((s.drop i).take w.length == w) &&
    !optWord s[i + w.length]?

/-- The word `w` occurs somewhere in `s` as a whole word. -/
def containsWholeWord (w s : Chars) : Bool :=
  (List.range (s.length + 1)).any fun i => wordOccursAt w s i

/-- Position-indexed occurrence of `Caused by:` preceded by a word boundary
and followed immediately by a word character. -/
def causedByOccursAt (s : Chars) (i : Nat) : Bool :=
  !optWord (prevCharAt s i) && ((s.drop i).take 10 == "Caused by:".data) &&
    optWord s[i + 10]?

/-- Some `Caused by:` occurrence with the boundary conditions above. -/
def containsCausedByWord (s : Chars) : Bool :=
  (List.range (s.length + 1)).any fun i => causedByOccursAt s i

/-- Declarative characterisation of an error line: one of the four severity
tokens as a whole word, the traceback phrase as a substring, or `Caused by:`
bounded as the compiled pattern demands. -/
def isErrorLineSpec (s : Chars) : Bool :=
  containsWholeWord "ERROR".data s || containsWholeWord "Exception".data s ||
  containsWholeWord "FATAL".data s || containsWholeWord "SEVERE".data s ||
  decide ("Traceback (most recent call last):".data <:+: s) ||
  containsCausedByWord s

/-- Digit groups joined by single dots, the shape of an IPv4 dotted quad. -/
def joinDots : List Chars → Chars
  | [] => []
  | [g] => g
  | g :: gs => g ++ '.' :: joinDots gs

/-- A digit or a literal dot. -/
def digitOrDot (c : Char) : Bool := c.isDigit || c == '.'

/-- Total number of occurrences over all groups. -/
def totalOccurrences (gs : List ErrorGroup) : Nat :=
  (gs.map fun g => g.examples.length).sum

/-- The four-line end-to-end input of the specification, as `readlines`
returns it. -/
def e2eLines : List String :=
  ["INFO start\n",
   "2024-01-02 10:00:00 ERROR Connection refused at 10.0.0.5 PID=1234\n",
   "some other info\n",
   "2024-01-02 10:05:33 ERROR Connection refused at 10.0.0.9 PID=5678"]

/-- Sample group with count 5 for the filter-order scenario. -/
def sampleGroupA : ErrorGroup := ⟨"sigA", "A", [], 5, "MEDIUM", none⟩

/-- Sample group with count 1 for the filter-order scenario. -/
def sampleGroupB : ErrorGroup := ⟨"sigB", "B", [], 1, "MEDIUM", none⟩

/-- Sample group with count 3 for the filter-order scenario. -/
def sampleGroupC : ErrorGroup := ⟨"sigC", "C", [], 3, "MEDIUM", none⟩

/-! Claim theorems. -/

/-- C1, counterexample: the standalone-integer rule runs before the IPv4 rule
and rewrites each digit group of a dotted quad, so `normalize_message` turns
`10.0.0.5` into `<NUM>.<NUM>.<NUM>.<NUM>` and the output holds no `<IP>`,
refuting the claim that the dotted quad is replaced with `<IP>`. -/
theorem claim_C1_counterexample :
    normalize_message "error at 10.0.0.5" = "error at <NUM>.<NUM>.<NUM>.<NUM>" ∧
    ¬ ("<IP>".data <:+: (normalize_message "error at 10.0.0.5").data) := by
  decide

/-- C2, counterexample: on the four-line end-to-end input the single group's
signature derives from
`<TIMESTAMP> ERROR Connection refused at <NUM>.<NUM>.<NUM>.<NUM> PID=<NUM>`,
not from `<TIMESTAMP> ERROR Connection refused at <IP> PID=<NUM>` as claimed,
and the two signatures differ. -/
theorem claim_C2_counterexample :
    (parse_log_file e2eLines).map (fun g => g.type) =
      [stable_signature
        "<TIMESTAMP> ERROR Connection refused at <NUM>.<NUM>.<NUM>.<NUM> PID=<NUM>"] ∧
    stable_signature
        "<TIMESTAMP> ERROR Connection refused at <NUM>.<NUM>.<NUM>.<NUM> PID=<NUM>" ≠
      stable_signature "<TIMESTAMP> ERROR Connection refused at <IP> PID=<NUM>" ∧
    normalize_message
        "2024-01-02 10:00:00 ERROR Connection refused at 10.0.0.5 PID=1234" ≠
      "<TIMESTAMP> ERROR Connection refused at <IP> PID=<NUM>" := by
  decide

/-- C2, amended: the end-to-end input yields exactly one group whose signature
derives from the normalized text
`<TIMESTAMP> ERROR Connection refused at <NUM>.<NUM>.<NUM>.<NUM> PID=<NUM>`,
with count 2 and occurrences at line numbers 2 and 4. -/
theorem claim_C2 :
    (parse_log_file e2eLines).map
        (fun g => (g.type, g.count, g.examples.map fun o => o.lineNumber)) =
      [(stable_signature
          "<TIMESTAMP> ERROR Connection refused at <NUM>.<NUM>.<NUM>.<NUM> PID=<NUM>",
        2, [2, 4])] ∧
    normalize_message
        "2024-01-02 10:00:00 ERROR Connection refused at 10.0.0.5 PID=1234" =
      "<TIMESTAMP> ERROR Connection refused at <NUM>.<NUM>.<NUM>.<NUM> PID=<NUM>" ∧
    normalize_message
        "2024-01-02 10:05:33 ERROR Connection refused at 10.0.0.9 PID=5678" =
      "<TIMESTAMP> ERROR Connection refused at <NUM>.<NUM>.<NUM>.<NUM> PID=<NUM>" := by
  decide

/-- C3, counterexample: `Caused by:` followed by a space occurs in the line as
a substring, yet no error pattern matches it, because the trailing `\b` of
`\bCaused by:\b` demands a word character right after the colon. -/
theorem claim_C3_counterexample :
    ("Caused by:".data <:+: "Caused by: java.io.IOException".data) ∧
    isErrorLine "Caused by: java.io.IOException" = false := by
  decide

/-- C5, counterexample: normalization is not idempotent; on `10xa` the hex
rule rewrites `0xa` and exposes the digit `1`, which only a second pass
collapses to `<NUM>`. -/
theorem claim_C5_counterexample :
    normalize_message (normalize_message "10xa") ≠ normalize_message "10xa" := by
  decide

/-- C5, amended: normalization is a pure deterministic function but not
idempotent in general: a replacement made by a later rule can expose a
standalone digit run for the earlier standalone-integer rule, as on `10xa`;
on the end-to-end error line a second application changes nothing. -/
theorem claim_C5 :
    normalize_message "10xa" = "1<HEX>" ∧
    normalize_message "1<HEX>" = "<NUM><HEX>" ∧
    normalize_message (normalize_message
        "2024-01-02 10:00:00 ERROR Connection refused at 10.0.0.5 PID=1234") =
      normalize_message
        "2024-01-02 10:00:00 ERROR Connection refused at 10.0.0.5 PID=1234" := by
  decide

/-- C10: a provided `top_k` of 0 or `min_count` of 0 is falsy in Python, so
post-processing behaves exactly as if the parameter were absent; in
particular `top_k = 0` returns all surviving groups, sorted, not the empty
list. -/
theorem claim_C10 :
    ∀ (gs : List ErrorGroup) (mc tk : Option Int),
      postProcess gs mc (some 0) = postProcess gs mc none ∧
      postProcess gs (some 0) tk = postProcess gs none tk ∧
      postProcess gs none (some 0) = sortGroupsDesc gs := by
  intro gs mc tk
  refine ⟨?_, ?_, ?_⟩ <;> simp [postProcess, pyTruthy]

/-- C7: the context extractor returns exactly the slice from
`max(0, index - before)` to `min(len(lines), index + after + 1)` joined by
newlines; the window at index 0 holds at most `1 + after` lines, the window
at the last index at most `1 + before` lines, and every window is a
contiguous part of the original lines. -/
theorem claim_C7 :
    ∀ (lines : List String) (index before after : Nat),
      get_context lines index before after =
        String.intercalate "\n" ((lines.drop (index - before)).take
          (min lines.length (index + after + 1) - (index - before))) ∧
      (contextSlice lines 0 before after).length ≤ 1 + after ∧
      (lines ≠ [] →
        (contextSlice lines (lines.length - 1) before after).length ≤ 1 + before) ∧
      (contextSlice lines index before after) <:+: lines := by
  intro lines index before after
  refine ⟨rfl, ?_, ?_, ?_⟩
  · simp only [contextSlice, List.length_take, List.length_drop]
    omega
  · intro h
    have hl : 0 < lines.length := List.length_pos.mpr h
    simp only [contextSlice, List.length_take, List.length_drop]
    omega
  · exact ⟨lines.take (index - before),
      (lines.drop (index - before)).drop
        (min lines.length (index + after + 1) - (index - before)),
      by simp only [contextSlice, List.append_assoc, List.take_append_drop]⟩

/-- C8: the modelled `suggest_solution` is total over every outcome of the
guarded body — disabled client, exception, response without JSON — and
returns the source's fallback answer with nonempty strings in both fields in
each failure case; enrichment always overwrites the representative message
with the reformulation and sets the solution. -/
theorem claim_C8 :
    ∀ (o : GenerateOutcome) (e t : String) (ans : GeminiAnswer) (g : ErrorGroup),
      suggest_solution false o = disabledAnswer ∧
      suggest_solution true (GenerateOutcome.raised e) = failureAnswer e ∧
      suggest_solution true (GenerateOutcome.textWithoutJson t) = noJsonAnswer ∧
      suggest_solution true (GenerateOutcome.parsedJson ans) = ans ∧
      disabledAnswer.reformulated ≠ "" ∧ disabledAnswer.solution ≠ "" ∧
      noJsonAnswer.reformulated ≠ "" ∧ noJsonAnswer.solution ≠ "" ∧
      (failureAnswer e).reformulated ≠ "" ∧ (failureAnswer e).solution ≠ "" ∧
      (enrichGroup ans g).representative_message = ans.reformulated ∧
      (enrichGroup ans g).solution = some ans.solution := by
  intro o e t ans g
  have hfail : "Échec Gemini: " ++ e ≠ "" := by
    intro h
    have h2 := congrArg String.length h
    rw [String.length_append] at h2
    have h3 : ("Échec Gemini: " : String).length = 14 := rfl
    have h4 : ("" : String).length = 0 := rfl
    omega
  exact ⟨rfl, rfl, rfl, rfl, by decide, by decide, by decide, by decide,
    hfail, hfail, rfl, rfl⟩

/-- C7, witness: the bound at the last index, instantiated on a two-line file. -/
theorem claim_C7_witness :
    (contextSlice ["a", "b"] ((["a", "b"] : List String).length - 1) 3 3).length ≤
      1 + 3 :=
  (claim_C7 ["a", "b"] 1 3 3).2.2.1 (by decide)

/-- Inserting by descending count permutes the element onto the list. -/
theorem insertByCountDesc_perm (g : ErrorGroup) (l : List ErrorGroup) :
    (insertByCountDesc g l).Perm (g :: l) := by
  induction l with
  | nil => exact List.Perm.refl _
  | cons h t ih =>
    by_cases hc : g.count < h.count
    · simp only [insertByCountDesc, if_pos hc]
      exact (ih.cons h).trans (List.Perm.swap g h t)
    · simp only [insertByCountDesc, if_neg hc]
      exact List.Perm.refl _

/-- The stable descending sort permutes its input. -/
theorem sortGroupsDesc_perm (gs : List ErrorGroup) : (sortGroupsDesc gs).Perm gs := by
  induction gs with
  | nil => exact List.Perm.refl _
  | cons g t ih =>
    exact (insertByCountDesc_perm g (sortGroupsDesc t)).trans (ih.cons g)

/-- Insertion preserves the descending-count pairwise order. -/
theorem insertByCountDesc_pairwise (g : ErrorGroup) (l : List ErrorGroup)
    (hl : l.Pairwise fun a b => b.count ≤ a.count) :
    (insertByCountDesc g l).Pairwise fun a b => b.count ≤ a.count := by
  induction l with
  | nil => simp [insertByCountDesc]
  | cons h t ih =>
    rcases List.pairwise_cons.mp hl with ⟨hh, ht⟩
    by_cases hc : g.count < h.count
    · simp only [insertByCountDesc, if_pos hc]
      refine List.pairwise_cons.mpr ⟨?_, ih ht⟩
      intro b hb
      rcases List.mem_cons.mp ((insertByCountDesc_perm g t).mem_iff.mp hb) with rfl | hbt
      · exact Nat.le_of_lt hc
      · exact hh b hbt
    · simp only [insertByCountDesc, if_neg hc]
      refine List.pairwise_cons.mpr ⟨?_, hl⟩
      intro b hb
      rcases List.mem_cons.mp hb with rfl | hbt
      · exact Nat.le_of_not_lt hc
      · exact le_trans (hh b hbt) (Nat.le_of_not_lt hc)

/-- The sort output is in descending count order. -/
theorem sortGroupsDesc_pairwise (gs : List ErrorGroup) :
    (sortGroupsDesc gs).Pairwise fun a b => b.count ≤ a.count := by
  induction gs with
  | nil => simp [sortGroupsDesc]
  | cons g t ih => exact insertByCountDesc_pairwise g (sortGroupsDesc t) ih

/-- Stability on ties: a list whose counts are all equal is left unchanged by
the sort, because an element is never moved past an equal count. -/
theorem sortGroupsDesc_const (c : Nat) :
    ∀ gs : List ErrorGroup, (∀ g ∈ gs, g.count = c) → sortGroupsDesc gs = gs := by
  intro gs
  induction gs with
  | nil => intro _; rfl
  | cons g t ih =>
    intro h
    have hg : g.count = c := h g (List.mem_cons_self g t)
    have ht : sortGroupsDesc t = t := ih fun x hx => h x (List.mem_cons_of_mem g hx)
    show insertByCountDesc g (sortGroupsDesc t) = g :: t
    rw [ht]
    cases t with
    | nil => rfl
    | cons h2 t2 =>
      have hh2 : h2.count = c := h h2 (by simp)
      simp only [insertByCountDesc]
      rw [if_neg (by rw [hg, hh2]; exact lt_irrefl c)]

/-- Post-processing with a truthy positive `min_count` and nonnegative truthy
`top_k` is filter, then stable descending sort, then prefix truncation, in
that order. -/
theorem postProcess_shape (gs : List ErrorGroup) (m k : Int) (hm : m ≠ 0)
    (hk0 : k ≠ 0) (hk : 0 ≤ k) :
    postProcess gs (some m) (some k) =
      (sortGroupsDesc (gs.filter fun g => m ≤ (g.count : Int))).take k.toNat := by
  simp [postProcess, pyTruthy, pySliceTo, hm, hk0, hk]

/-- C4: post-processing drops groups under the provided positive `minCount`,
stably sorts the survivors by descending count, then truncates to the
provided positive `topK`; on counts `[5, 1, 3]` with `minCount = 2` the
result is the count sequence `[5, 3]`, and with `topK = 1` additionally it is
`[5]`; the sort is a permutation, descending on counts, and leaves a list of
tied counts unchanged. -/
theorem claim_C4 :
    (postProcess [sampleGroupA, sampleGroupB, sampleGroupC] (some 2) none =
        [sampleGroupA, sampleGroupC] ∧
      postProcess [sampleGroupA, sampleGroupB, sampleGroupC] (some 2) (some 1) =
        [sampleGroupA]) ∧
    (∀ (gs : List ErrorGroup) (m k : Int), m ≠ 0 → k ≠ 0 → 0 ≤ k →
      postProcess gs (some m) (some k) =
        (sortGroupsDesc (gs.filter fun g => m ≤ (g.count : Int))).take k.toNat) ∧
    (∀ gs : List ErrorGroup, (sortGroupsDesc gs).Perm gs ∧
      (sortGroupsDesc gs).Pairwise fun a b => b.count ≤ a.count) ∧
    (∀ (c : Nat) (gs : List ErrorGroup), (∀ g ∈ gs, g.count = c) →
      sortGroupsDesc gs = gs) :=
  ⟨⟨by decide, by decide⟩,
   fun gs m k hm hk0 hk => postProcess_shape gs m k hm hk0 hk,
   fun gs => ⟨sortGroupsDesc_perm gs, sortGroupsDesc_pairwise gs⟩,
   sortGroupsDesc_const⟩

/-- C4, witness: the pipeline shape and tie stability instantiated on the
sample groups. -/
theorem claim_C4_witness :
    postProcess [sampleGroupA, sampleGroupB, sampleGroupC] (some 2) (some 1) =
      (sortGroupsDesc (([sampleGroupA, sampleGroupB, sampleGroupC] :
        List ErrorGroup).filter fun g => 2 ≤ (g.count : Int))).take
          (1 : Int).toNat ∧
    sortGroupsDesc [sampleGroupB] = [sampleGroupB] :=
  ⟨claim_C4.2.1 _ 2 1 (by decide) (by decide) (by decide),
   claim_C4.2.2.2 1 [sampleGroupB] (by decide)⟩

/-- Adding an occurrence preserves the count-equals-length invariant. -/
theorem addOccurrence_count_eq (sig st : String) (ln : Nat) (ctx : String) :
    ∀ gs : List ErrorGroup, (∀ g ∈ gs, g.count = g.examples.length) →
      ∀ g ∈ addOccurrence sig st ln ctx gs, g.count = g.examples.length := by
  intro gs
  induction gs with
  | nil =>
    intro _ g hg
    simp only [addOccurrence, List.mem_singleton] at hg
    subst hg
    rfl
  | cons h t ih =>
    intro hinv g hg
    have hh := hinv h (List.mem_cons_self h t)
    have htait : ∀ g ∈ t, g.count = g.examples.length :=
      fun x hx => hinv x (List.mem_cons_of_mem h hx)
    cases hb : h.type == sig with
    | true =>
      simp only [addOccurrence, hb, if_true] at hg
      rcases List.mem_cons.mp hg with rfl | hgt
      · simp only [List.length_append, List.length_cons, List.length_nil, hh]
      · exact htait g hgt
    | false =>
      simp only [addOccurrence, hb, Bool.false_eq_true, if_false] at hg
      rcases List.mem_cons.mp hg with rfl | hgt
      · exact hh
      · exact ih htait g hgt

/-- C6: for every group in the state after any number of processed lines, the
count equals the number of accumulated occurrences. -/
theorem claim_C6 :
    ∀ (lines : List String) (n : Nat) (g : ErrorGroup),
      g ∈ parseUpTo lines n → g.count = g.examples.length := by
  intro lines n
  induction n with
  | zero => intro g hg; simp [parseUpTo] at hg
  | succ n ih =>
    intro g hg
    simp only [parseUpTo, parseStep] at hg
    split at hg
    · exact addOccurrence_count_eq _ _ _ _ (parseUpTo lines n) ih g hg
    · exact ih g hg

/-- C6, witness: the invariant on the single group obtained from a one-line
file containing one error line. -/
theorem claim_C6_witness :
    (⟨"ERROR_x", "ERROR x", [⟨"ERROR x", 1, "ERROR x"⟩], 1, "MEDIUM", none⟩ :
        ErrorGroup).count =
      (⟨"ERROR_x", "ERROR x", [⟨"ERROR x", 1, "ERROR x"⟩], 1, "MEDIUM", none⟩ :
        ErrorGroup).examples.length :=
  claim_C6 ["ERROR x"] 1
    ⟨"ERROR_x", "ERROR x", [⟨"ERROR x", 1, "ERROR x"⟩], 1, "MEDIUM", none⟩
    (by decide)

/-- Adding an occurrence grows the total occurrence count by exactly one. -/
theorem addOccurrence_total (sig st : String) (ln : Nat) (ctx : String) :
    ∀ gs : List ErrorGroup,
      totalOccurrences (addOccurrence sig st ln ctx gs) =
        totalOccurrences gs + 1 := by
  intro gs
  induction gs with
  | nil => rfl
  | cons h t ih =>
    cases hb : h.type == sig with
    | true =>
      simp only [addOccurrence, hb, if_true, totalOccurrences, List.map_cons,
        List.sum_cons, List.length_append, List.length_cons, List.length_nil]
      omega
    | false =>
      simp only [addOccurrence, hb, Bool.false_eq_true, if_false,
        totalOccurrences, List.map_cons, List.sum_cons] at ih ⊢
      omega

/-- Adding an occurrence either keeps the signature list or appends the new
signature at the end when it is fresh. -/
theorem addOccurrence_types (sig st : String) (ln : Nat) (ctx : String) :
    ∀ gs : List ErrorGroup,
      (addOccurrence sig st ln ctx gs).map (fun g => g.type) =
        if sig ∈ gs.map (fun g => g.type) then gs.map (fun g => g.type)
        else gs.map (fun g => g.type) ++ [sig] := by
  intro gs
  induction gs with
  | nil => simp [addOccurrence]
  | cons h t ih =>
    cases hb : h.type == sig with
    | true =>
      have he : h.type = sig := by simpa using hb
      simp [addOccurrence, hb, List.mem_cons, he]
    | false =>
      have hne : sig ≠ h.type := by
        intro h2
        rw [h2] at hb
        simp at hb
      by_cases hmem : sig ∈ t.map fun g => g.type
      · simp [addOccurrence, hb, ih, hmem, List.mem_cons, hne]
      · simp [addOccurrence, hb, ih, hmem, List.mem_cons, hne]

/-- The signature list of the running group state never holds duplicates. -/
theorem parse_types_nodup :
    ∀ (lines : List String) (n : Nat),
      ((parseUpTo lines n).map fun g => g.type).Nodup := by
  intro lines n
  induction n with
  | zero => simp [parseUpTo]
  | succ n ih =>
    simp only [parseUpTo, parseStep]
    split
    · rw [addOccurrence_types]
      split
      · exact ih
      · rename_i hmem
        exact List.nodup_append.mpr
          ⟨ih, List.nodup_singleton _, List.disjoint_singleton.mpr hmem⟩
    · exact ih

/-- Running total: the occurrences accumulated over the first `n` lines are
exactly the matching lines among them. -/
theorem parse_total :
    ∀ (lines : List String) (n : Nat),
      totalOccurrences (parseUpTo lines n) =
        ((lines.take n).filter fun l => isErrorLine (pyRstripNewline l)).length := by
  intro lines n
  induction n with
  | zero => rfl
  | succ n ih =>
    rw [List.take_succ, List.filter_append, List.length_append]
    simp only [parseUpTo, parseStep]
    cases hl : lines[n]? with
    | none =>
      have hfalse : isErrorLine (pyRstripNewline "") = false := by decide
      simp [hfalse, ih]
    | some l =>
      simp only [Option.getD_some, Option.toList_some]
      cases hm : isErrorLine (pyRstripNewline l) with
      | true => simp [hm, addOccurrence_total, ih]
      | false => simp [hm, ih]

/-- C9: every matching line contributes exactly one occurrence to exactly one
group — the total over all groups equals the number of matching lines, and
the groups carry pairwise distinct signatures. -/
theorem claim_C9 :
    ∀ lines : List String,
      totalOccurrences (parse_log_file lines) =
        (lines.filter fun l => isErrorLine (pyRstripNewline l)).length ∧
      ((parse_log_file lines).map fun g => g.type).Nodup := by
  intro lines
  constructor
  · have h := parse_total lines lines.length
    rwa [List.take_length] at h
  · exact parse_types_nodup lines lines.length

/-- Boolean extensionality via the two coercions. -/
theorem bool_eq_of_iff {a b : Bool} (h : a = true ↔ b = true) : a = b := by
  cases a <;> cases b <;> simp_all

/-- A search succeeds exactly when some position admits a match, where the
previous character of position `i` is the character at `i - 1`. -/
theorem searchAux_iff (m : Matcher) (hnil : ∀ prev, m prev [] = none) :
    ∀ (s : Chars) (prev : Option Char),
      searchAux m prev s = true ↔
        ∃ i, (m (if i = 0 then prev else s[i - 1]?) (s.drop i)).isSome := by
  intro s
  induction s with
  | nil =>
    intro prev
    simp only [searchAux]
    constructor
    · intro h
      rw [hnil] at h
      simp at h
    · rintro ⟨i, hi⟩
      rw [List.drop_nil, hnil] at hi
      simp at hi
  | cons c cs ih =>
    intro prev
    simp only [searchAux, Bool.or_eq_true]
    constructor
    · rintro (h0 | hrec)
      · exact ⟨0, by simpa using h0⟩
      · rcases (ih (some c)).mp hrec with ⟨j, hj⟩
        refine ⟨j + 1, ?_⟩
        rcases j with _ | j2
        · simpa using hj
        · simpa using hj
    · rintro ⟨i, hi⟩
      rcases i with _ | j
      · exact Or.inl (by simpa using hi)
      · right
        apply (ih (some c)).mpr
        refine ⟨j, ?_⟩
        rcases j with _ | j2
        · simpa using hi
        · simpa using hi

/-- Success of the literal-sequence matcher is prefix equality. -/
theorem litSeq_eq_some_iff (w : Chars) :
    ∀ (t r : Chars),
      litSeq w t = some r ↔ t.take w.length = w ∧ r = t.drop w.length := by
  induction w with
  | nil =>
    intro t r
    simp [litSeq, eq_comm]
  | cons a w ih =>
    intro t r
    cases t with
    | nil => simp [litSeq]
    | cons b t2 =>
      simp only [litSeq, List.length_cons, List.take_succ_cons, List.drop_succ_cons]
      by_cases hb : b = a
      · subst hb
        simp [ih]
      · have hba : (b == a) = false := by simp [hb]
        simp [hba, hb]

/-- The compiled whole-word matcher at position `i` agrees with the indexed
occurrence predicate. -/
theorem mWholeWord_isSome (w : Chars) (s : Chars) (i : Nat) :
    (mWholeWord w (prevCharAt s i) (s.drop i)).isSome = wordOccursAt w s i := by
  unfold mWholeWord wordOccursAt
  cases how : optWord (prevCharAt s i) with
  | true => simp [how]
  | false =>
    simp only [how, Bool.not_false, Bool.true_and, Bool.false_eq_true, if_false]
    cases hls : litSeq w (s.drop i) with
    | none =>
      have hne : ¬ (s.drop i).take w.length = w := by
        intro he
        have h2 := (litSeq_eq_some_iff w (s.drop i) ((s.drop i).drop w.length)).mpr
          ⟨he, rfl⟩
        rw [hls] at h2
        exact Option.noConfusion h2
      simp [hne]
    | some rest =>
      rcases (litSeq_eq_some_iff w (s.drop i) rest).mp hls with ⟨htake, hrest⟩
      have hhead : rest.head? = s[i + w.length]? := by
        rw [hrest, List.drop_drop, List.head?_drop]
      dsimp only
      rw [hhead, htake]
      cases hnext : optWord s[i + w.length]? <;> simp [hnext]

/-- The compiled `Caused by:` matcher at position `i` agrees with the indexed
occurrence predicate. -/
theorem mCausedBy_isSome (s : Chars) (i : Nat) :
    (mCausedBy (prevCharAt s i) (s.drop i)).isSome = causedByOccursAt s i := by
  unfold mCausedBy causedByOccursAt
  cases how : optWord (prevCharAt s i) with
  | true => simp [how]
  | false =>
    simp only [how, Bool.not_false, Bool.true_and, Bool.false_eq_true, if_false]
    cases hls : litSeq "Caused by:".data (s.drop i) with
    | none =>
      have hne : ¬ (s.drop i).take 10 = "Caused by:".data := by
        intro he
        have h2 := (litSeq_eq_some_iff "Caused by:".data (s.drop i)
          ((s.drop i).drop 10)).mpr ⟨he, rfl⟩
        rw [hls] at h2
        exact Option.noConfusion h2
      simp [hne]
    | some rest =>
      rcases (litSeq_eq_some_iff "Caused by:".data (s.drop i) rest).mp hls with
        ⟨htake, hrest⟩
      have hlen : ("Caused by:".data).length = 10 := rfl
      rw [hlen] at htake hrest
      have hhead : rest.head? = s[i + 10]? := by
        rw [hrest, List.drop_drop, List.head?_drop]
      dsimp only
      rw [hhead, htake]
      cases hnext : optWord s[i + 10]? <;> simp [hnext]

/-- The compiled traceback matcher at a position is prefix equality with the
phrase. -/
theorem mTraceback_isSome (s : Chars) (i : Nat) :
    (mTraceback (prevCharAt s i) (s.drop i)).isSome =
      ((s.drop i).take 34 == "Traceback (most recent call last):".data) := by
  unfold mTraceback
  cases hls : litSeq "Traceback (most recent call last):".data (s.drop i) with
  | none =>
    have hne : ¬ (s.drop i).take 34 = "Traceback (most recent call last):".data := by
      intro he
      have h2 := (litSeq_eq_some_iff "Traceback (most recent call last):".data
        (s.drop i) ((s.drop i).drop 34)).mpr ⟨he, rfl⟩
      rw [hls] at h2
      exact Option.noConfusion h2
    simp [hne]
  | some rest =>
    have htake := ((litSeq_eq_some_iff "Traceback (most recent call last):".data
      (s.drop i) rest).mp hls).1
    have hlen : ("Traceback (most recent call last):".data).length = 34 := rfl
    rw [hlen] at htake
    simp [htake]

/-- Infix occurrence as a position where the text starts. -/
theorem infix_iff_exists_drop (w s : Chars) :
    w <:+: s ↔ ∃ i, (s.drop i).take w.length = w := by
  constructor
  · rintro ⟨pre, suf, h⟩
    refine ⟨pre.length, ?_⟩
    rw [← h, List.append_assoc, List.drop_left, List.take_left]
  · rintro ⟨i, hi⟩
    refine ⟨s.take i, (s.drop i).drop w.length, ?_⟩
    have h2 : (s.drop i).take w.length ++ (s.drop i).drop w.length = s.drop i :=
      List.take_append_drop _ _
    rw [hi] at h2
    rw [List.append_assoc, h2, List.take_append_drop]

/-- Searching a whole-word pattern equals the declarative whole-word test. -/
theorem reSearch_wholeWord (w : Chars) (hw : w ≠ []) (s : Chars) :
    reSearch (mWholeWord w) s = containsWholeWord w s := by
  apply bool_eq_of_iff
  have hnil : ∀ prev, mWholeWord w prev [] = none := by
    intro prev
    unfold mWholeWord
    cases w with
    | nil => exact absurd rfl hw
    | cons a w2 => cases optWord prev <;> simp [litSeq]
  rw [reSearch, searchAux_iff (mWholeWord w) hnil s none]
  unfold containsWholeWord
  rw [List.any_eq_true]
  constructor
  · rintro ⟨i, hi⟩
    have hw2 : (mWholeWord w (prevCharAt s i) (s.drop i)).isSome = true := by
      unfold prevCharAt
      exact hi
    rw [mWholeWord_isSome] at hw2
    refine ⟨i, List.mem_range.mpr ?_, hw2⟩
    by_contra hlt
    push_neg at hlt
    have hdrop : s.drop i = [] := List.drop_eq_nil_of_le (by omega)
    unfold wordOccursAt at hw2
    rw [hdrop] at hw2
    simp only [List.take_nil, Bool.and_eq_true] at hw2
    exact hw (eq_of_beq hw2.1.2).symm
  · rintro ⟨i, _, hi⟩
    refine ⟨i, ?_⟩
    have h2 : (mWholeWord w (prevCharAt s i) (s.drop i)).isSome = true := by
      rw [mWholeWord_isSome]; exact hi
    unfold prevCharAt at h2
    exact h2

/-- Searching the bounded `Caused by:` pattern equals the declarative test. -/
theorem reSearch_causedBy (s : Chars) :
    reSearch mCausedBy s = containsCausedByWord s := by
  apply bool_eq_of_iff
  have hnil : ∀ prev, mCausedBy prev [] = none := by
    intro prev
    unfold mCausedBy
    cases optWord prev <;> simp [litSeq]
  rw [reSearch, searchAux_iff mCausedBy hnil s none]
  unfold containsCausedByWord
  rw [List.any_eq_true]
  constructor
  · rintro ⟨i, hi⟩
    have hw2 : (mCausedBy (prevCharAt s i) (s.drop i)).isSome = true := by
      unfold prevCharAt
      exact hi
    rw [mCausedBy_isSome] at hw2
    refine ⟨i, List.mem_range.mpr ?_, hw2⟩
    by_contra hlt
    push_neg at hlt
    have hdrop : s.drop i = [] := List.drop_eq_nil_of_le (by omega)
    unfold causedByOccursAt at hw2
    rw [hdrop] at hw2
    simp only [List.take_nil, Bool.and_eq_true] at hw2
    exact absurd (eq_of_beq hw2.1.2) (by decide)
  · rintro ⟨i, _, hi⟩
    refine ⟨i, ?_⟩
    have h2 : (mCausedBy (prevCharAt s i) (s.drop i)).isSome = true := by
      rw [mCausedBy_isSome]; exact hi
    unfold prevCharAt at h2
    exact h2

/-- Searching the traceback pattern equals substring containment. -/
theorem reSearch_traceback (s : Chars) :
    reSearch mTraceback s =
      decide ("Traceback (most recent call last):".data <:+: s) := by
  apply bool_eq_of_iff
  have hnil : ∀ prev, mTraceback prev [] = none := by
    intro prev
    unfold mTraceback
    simp [litSeq]
  rw [reSearch, searchAux_iff mTraceback hnil s none, decide_eq_true_iff]
  rw [infix_iff_exists_drop]
  constructor
  · rintro ⟨i, hi⟩
    have h2 : (mTraceback (prevCharAt s i) (s.drop i)).isSome = true := by
      unfold prevCharAt
      exact hi
    rw [mTraceback_isSome] at h2
    exact ⟨i, eq_of_beq h2⟩
  · rintro ⟨i, hi⟩
    refine ⟨i, ?_⟩
    have h2 : (mTraceback (prevCharAt s i) (s.drop i)).isSome = true := by
      rw [mTraceback_isSome]
      exact beq_iff_eq.mpr hi
    unfold prevCharAt at h2
    exact h2

/-- The compiled pattern list decides exactly the declarative error-line
characterisation. -/
theorem isErrorLine_eq_spec (s : String) : isErrorLine s = isErrorLineSpec s.data := by
  have h1 := reSearch_wholeWord "ERROR".data (by decide) s.data
  have h2 := reSearch_wholeWord "Exception".data (by decide) s.data
  have h3 := reSearch_wholeWord "FATAL".data (by decide) s.data
  have h4 := reSearch_wholeWord "SEVERE".data (by decide) s.data
  have h5 := reSearch_traceback s.data
  have h6 := reSearch_causedBy s.data
  unfold isErrorLine ERROR_MATCHERS
  simp only [List.any_cons, List.any_nil, Bool.or_false, h1, h2, h3, h4, h5, h6]
  unfold isErrorLineSpec
  simp only [Bool.or_assoc]

/-- A whole-word occurrence puts every character of the word into the text. -/
theorem containsWholeWord_sub (w s : Chars) (h : containsWholeWord w s = true) :
    ∀ c ∈ w, c ∈ s := by
  rcases List.any_eq_true.mp h with ⟨i, _, hi⟩
  unfold wordOccursAt at hi
  simp only [Bool.and_eq_true] at hi
  have htake := eq_of_beq hi.1.2
  intro c hc
  have hmem : c ∈ (s.drop i).take w.length := by
    rw [htake]
    exact hc
  exact List.drop_subset i s (List.take_subset _ _ hmem)

/-- A bounded `Caused by:` occurrence puts its characters into the text. -/
theorem containsCausedByWord_sub (s : Chars) (h : containsCausedByWord s = true) :
    ∀ c ∈ "Caused by:".data, c ∈ s := by
  rcases List.any_eq_true.mp h with ⟨i, _, hi⟩
  unfold causedByOccursAt at hi
  simp only [Bool.and_eq_true] at hi
  have htake := eq_of_beq hi.1.2
  intro c hc
  have hmem : c ∈ (s.drop i).take 10 := by
    rw [htake]
    exact hc
  exact List.drop_subset i s (List.take_subset _ _ hmem)

/-- Whitespace-only text satisfies none of the declarative disjuncts. -/
theorem isErrorLineSpec_false_of_space (s : Chars)
    (hs : ∀ c ∈ s, isSpaceChar c = true) : isErrorLineSpec s = false := by
  have h1 : containsWholeWord "ERROR".data s = false := by
    cases h : containsWholeWord "ERROR".data s
    · rfl
    · have hE := containsWholeWord_sub _ _ h 'E' (by decide)
      exact absurd (hs 'E' hE) (by decide)
  have h2 : containsWholeWord "Exception".data s = false := by
    cases h : containsWholeWord "Exception".data s
    · rfl
    · have hE := containsWholeWord_sub _ _ h 'E' (by decide)
      exact absurd (hs 'E' hE) (by decide)
  have h3 : containsWholeWord "FATAL".data s = false := by
    cases h : containsWholeWord "FATAL".data s
    · rfl
    · have hE := containsWholeWord_sub _ _ h 'F' (by decide)
      exact absurd (hs 'F' hE) (by decide)
  have h4 : containsWholeWord "SEVERE".data s = false := by
    cases h : containsWholeWord "SEVERE".data s
    · rfl
    · have hE := containsWholeWord_sub _ _ h 'S' (by decide)
      exact absurd (hs 'S' hE) (by decide)
  have h5 : decide ("Traceback (most recent call last):".data <:+: s) = false := by
    cases h : decide ("Traceback (most recent call last):".data <:+: s)
    · rfl
    · have hinf := of_decide_eq_true h
      have hT : 'T' ∈ s := hinf.subset (by decide)
      exact absurd (hs 'T' hT) (by decide)
  have h6 : containsCausedByWord s = false := by
    cases h : containsCausedByWord s
    · rfl
    · have hC := containsCausedByWord_sub _ h 'C' (by decide)
      exact absurd (hs 'C' hC) (by decide)
  simp [isErrorLineSpec, h1, h2, h3, h4, h5, h6]

/-- C3, amended: a line is classified as an error line exactly when it
contains ERROR, Exception, FATAL or SEVERE as a whole word, the phrase
`Traceback (most recent call last):` anywhere, or `Caused by:` preceded by a
word boundary and followed immediately by a word character; empty or
whitespace-only lines never match. -/
theorem claim_C3 :
    (∀ s : String, isErrorLine s = isErrorLineSpec s.data) ∧
    (∀ s : String, (∀ c ∈ s.data, isSpaceChar c = true) → isErrorLine s = false) := by
  constructor
  · exact isErrorLine_eq_spec
  · intro s hs
    rw [isErrorLine_eq_spec]
    exact isErrorLineSpec_false_of_space s.data hs

/-- C3, witness: the characterisation evaluated on a concrete error line and
the whitespace case on a blank line. -/
theorem claim_C3_witness :
    isErrorLine "ERROR: disk full" = isErrorLineSpec "ERROR: disk full".data ∧
    isErrorLine "   " = false :=
  ⟨claim_C3.1 "ERROR: disk full", claim_C3.2 "   " (by decide)⟩

/-- Substitution with a matcher that never fires on text from a character
class is the identity. -/
theorem substFuel_id_of_none (m : Matcher) (repl : Chars) (p : Char → Bool)
    (hm : ∀ prev t, t.all p = true → m prev t = none) :
    ∀ (fuel : Nat) (prev : Option Char) (s : Chars), s.all p = true →
      substFuel m repl fuel prev s = s := by
  intro fuel
  induction fuel with
  | zero => intro prev s _; rfl
  | succ f ih =>
    intro prev s hs
    cases s with
    | nil => rfl
    | cons c cs =>
      have hmc := hm prev (c :: cs) hs
      have hcs : cs.all p = true := by
        simp only [List.all_cons, Bool.and_eq_true] at hs
        exact hs.2
      simp only [substFuel, hmc]
      rw [ih (some c) cs hcs]

/-- Successful exact-digit matching drops exactly that many characters. -/
theorem matchNDigits_eq_drop :
    ∀ (n : Nat) (t r : Chars), matchNDigits n t = some r → r = t.drop n := by
  intro n
  induction n with
  | zero =>
    intro t r h
    simp only [matchNDigits, Option.some.injEq] at h
    simp [h.symm]
  | succ n ih =>
    intro t r h
    cases t with
    | nil => exact Option.noConfusion h
    | cons c cs =>
      simp only [matchNDigits] at h
      by_cases hc : c.isDigit
      · rw [if_pos hc] at h
        simpa using ih cs r h
      · rw [if_neg hc] at h
        exact Option.noConfusion h

/-- Dropping preserves a character-class invariant. -/
theorem all_drop_of_all (p : Char → Bool) (t : Chars) (n : Nat)
    (h : t.all p = true) : (t.drop n).all p = true := by
  rw [List.all_eq_true] at h ⊢
  exact fun x hx => h x (List.drop_subset n t hx)

/-- A literal-character matcher for a character outside the class fails on
text from the class. -/
theorem litChar_none_of_digitOrDot (c0 : Char) (hc0 : digitOrDot c0 = false)
    (r : Chars) (hr : r.all digitOrDot = true) : litChar c0 r = none := by
  cases r with
  | nil => rfl
  | cons c cs =>
    simp only [List.all_cons, Bool.and_eq_true] at hr
    have hne : (c == c0) = false := by
      cases hb : (c == c0)
      · rfl
      · have he : c = c0 := eq_of_beq hb
        rw [he] at hr
        rw [hr.1] at hc0
        exact Bool.noConfusion hc0
    simp [litChar, hne]

/-- The timestamp rule never fires on digit-and-dot text: after the leading
digits it demands a hyphen. -/
theorem mTimestamp_none_of_digitOrDot (prev : Option Char) (t : Chars)
    (ht : t.all digitOrDot = true) : mTimestamp prev t = none := by
  unfold mTimestamp
  have hcore : mTimestampCore t = none := by
    unfold mTimestampCore
    cases h4 : matchNDigits 4 t with
    | none => simp [h4]
    | some r =>
      have hr : r = t.drop 4 := matchNDigits_eq_drop 4 t r h4
      have hrall : r.all digitOrDot = true := by
        rw [hr]; exact all_drop_of_all _ t 4 ht
      have hlit : litChar '-' r = none :=
        litChar_none_of_digitOrDot '-' (by decide) r hrall
      simp [h4, hlit]
  rw [hcore]

/-- The bare-time rule never fires on digit-and-dot text: after two digits it
demands a colon. -/
theorem mTime_none_of_digitOrDot (prev : Option Char) (t : Chars)
    (ht : t.all digitOrDot = true) : mTime prev t = none := by
  unfold mTime
  cases hw : optWord prev with
  | true => simp [hw]
  | false =>
    simp only [hw, Bool.false_eq_true, if_false]
    cases h2 : matchNDigits 2 t with
    | none => simp [h2]
    | some r =>
      have hr : r = t.drop 2 := matchNDigits_eq_drop 2 t r h2
      have hrall : r.all digitOrDot = true := by
        rw [hr]; exact all_drop_of_all _ t 2 ht
      have hlit : litChar ':' r = none :=
        litChar_none_of_digitOrDot ':' (by decide) r hrall
      simp [h2, hlit]

/-- The run of a class over a group from the class followed by text starting
outside the class is the group length. -/
theorem runOf_append (p : Char → Bool) (g rest : Chars) (hg : g.all p = true)
    (hrest : ∀ c, rest.head? = some c → p c = false) :
    runOf p (g ++ rest) = g.length := by
  induction g with
  | nil =>
    cases rest with
    | nil => rfl
    | cons c cs => simp [runOf, hrest c rfl]
  | cons a g2 ih =>
    simp only [List.all_cons, Bool.and_eq_true] at hg
    simp only [List.cons_append, runOf, hg.1, if_true, List.length_cons]
    exact congrArg (fun n => n + 1) (ih hg.2)

/-- The digit run of a digit group followed by non-digit text is the group
length. -/
theorem digitRun_append (g rest : Chars) (hg : g.all Char.isDigit = true)
    (hrest : ∀ c, rest.head? = some c → c.isDigit = false) :
    digitRun (g ++ rest) = g.length := by
  unfold digitRun
  exact runOf_append Char.isDigit g rest hg hrest

/-- The standalone-integer rule fires on a whole digit group when the
position follows a non-word character and the group is followed by a
non-word, non-digit character or the end. -/
theorem mNum_group (prev : Option Char) (hprev : optWord prev = false)
    (g rest : Chars) (hg : g ≠ []) (hgd : g.all Char.isDigit = true)
    (hrest : ∀ c, rest.head? = some c →
      c.isDigit = false ∧ isWordChar c = false) :
    mNum prev (g ++ rest) = some g.length := by
  have hdr : digitRun (g ++ rest) = g.length :=
    digitRun_append g rest hgd fun c hc => (hrest c hc).1
  have hhead : optWord rest.head? = false := by
    cases rest with
    | nil => rfl
    | cons c cs =>
      have hc := (hrest c rfl).2
      simp [optWord, hc]
  have hlen : 0 < g.length := List.length_pos.mpr hg
  simp [mNum, hprev, hdr, List.drop_left, hhead, hlen]

/-- The standalone-integer rule never fires at a dot. -/
theorem mNum_dot (prev : Option Char) (t : Chars) :
    mNum prev ('.' :: t) = none := by
  cases hw : optWord prev with
  | true => simp [mNum, hw]
  | false => simp [mNum, hw, digitRun, runOf]

/-- Substitution leaves the empty text empty for any fuel. -/
theorem substFuel_nil (m : Matcher) (repl : Chars) :
    ∀ (fuel : Nat) (prev : Option Char), substFuel m repl fuel prev [] = [] := by
  intro fuel prev
  cases fuel <;> rfl

/-- A nonempty list dropped to its last element is a singleton. -/
theorem drop_length_sub_one :
    ∀ (l : Chars), l ≠ [] → ∃ x, l.drop (l.length - 1) = [x] := by
  intro l
  induction l with
  | nil => intro h; exact absurd rfl h
  | cons c cs ih =>
    intro _
    cases hcs : cs with
    | nil => exact ⟨c, rfl⟩
    | cons c2 cs2 =>
      rcases ih (by simp [hcs]) with ⟨x, hx⟩
      refine ⟨x, ?_⟩
      rw [hcs] at hx
      have hlen : (c :: c2 :: cs2).length - 1 = (c2 :: cs2).length := rfl
      rw [hlen, List.length_cons, List.drop_succ_cons]
      have hlen2 : (c2 :: cs2).length - 1 = cs2.length := rfl
      rw [hlen2] at hx
      exact hx

/-- One substitution step at a match: emit the replacement and resume after
the matched text, remembering its last character. -/
theorem substFuel_step_match (m : Matcher) (repl : Chars) (fuel : Nat)
    (prev : Option Char) (c : Char) (cs : Chars) (n : Nat)
    (h : m prev (c :: cs) = some (n + 1)) (x : Char) (rest : Chars)
    (hd : (c :: cs).drop n = x :: rest) :
    substFuel m repl (fuel + 1) prev (c :: cs) =
      repl ++ substFuel m repl fuel (some x) rest := by
  simp only [substFuel, h, hd]

/-- One substitution step at a non-match: keep the character and move on. -/
theorem substFuel_step_none (m : Matcher) (repl : Chars) (fuel : Nat)
    (prev : Option Char) (c : Char) (cs : Chars)
    (h : m prev (c :: cs) = none) :
    substFuel m repl (fuel + 1) prev (c :: cs) =
      c :: substFuel m repl fuel (some c) cs := by
  simp only [substFuel, h]

/-- Applying the standalone-integer substitution to dot-joined nonempty digit
groups replaces each group with `<NUM>`. -/
theorem substFuel_mNum_joinDots :
    ∀ (gs : List Chars) (fuel : Nat) (prev : Option Char),
      (∀ g ∈ gs, g ≠ [] ∧ g.all Char.isDigit = true) →
      (joinDots gs).length ≤ fuel →
      optWord prev = false →
      substFuel mNum "<NUM>".data fuel prev (joinDots gs) =
        joinDots (gs.map fun _ => "<NUM>".data) := by
  intro gs
  induction gs with
  | nil =>
    intro fuel prev _ _ _
    exact substFuel_nil mNum "<NUM>".data fuel prev
  | cons g tail ih =>
    intro fuel prev hgs hfuel hprev
    rcases hgs g (List.mem_cons_self g tail) with ⟨hg, hgd⟩
    obtain ⟨c, cs, rfl⟩ : ∃ c cs, g = c :: cs := by
      cases g with
      | nil => exact absurd rfl hg
      | cons c cs => exact ⟨c, cs, rfl⟩
    cases tail with
    | nil =>
      have hj : joinDots [c :: cs] = c :: cs := rfl
      rw [hj] at hfuel ⊢
      cases fuel with
      | zero => simp at hfuel
      | succ f =>
        have hm : mNum prev (c :: cs) = some (cs.length + 1) := by
          have h0 := mNum_group prev hprev (c :: cs) [] hg hgd
            (by intro c2 hc2; exact Option.noConfusion hc2)
          rw [List.append_nil] at h0
          simpa using h0
        rcases drop_length_sub_one (c :: cs) hg with ⟨x, hx⟩
        have hx2 : (c :: cs).drop cs.length = [x] := by
          have h4 : (c :: cs).length - 1 = cs.length := rfl
          rw [← h4]
          exact hx
        rw [substFuel_step_match mNum "<NUM>".data f prev c cs cs.length hm x [] hx2]
        rw [substFuel_nil, List.append_nil]
        rfl
    | cons g2 gs2 =>
      have hj : joinDots ((c :: cs) :: g2 :: gs2) =
          (c :: cs) ++ '.' :: joinDots (g2 :: gs2) := rfl
      set R := joinDots (g2 :: gs2) with hR
      rw [hj] at hfuel ⊢
      have hflen : cs.length + 1 + (R.length + 1) ≤ fuel := by
        have h5 := hfuel
        rw [List.length_append, List.length_cons, List.length_cons] at h5
        omega
      cases fuel with
      | zero => omega
      | succ f =>
        have hm : mNum prev ((c :: cs) ++ '.' :: R) = some (cs.length + 1) := by
          have h0 := mNum_group prev hprev (c :: cs) ('.' :: R) hg hgd
            (by
              intro c2 hc2
              simp only [List.head?] at hc2
              cases hc2
              constructor <;> decide)
          simpa using h0
        have hm2 : mNum prev (c :: (cs ++ '.' :: R)) = some (cs.length + 1) := by
          rw [← List.cons_append]
          exact hm
        rcases drop_length_sub_one (c :: cs) hg with ⟨x, hx⟩
        have hx2 : (c :: (cs ++ '.' :: R)).drop cs.length = x :: '.' :: R := by
          have h3 : (c :: (cs ++ '.' :: R)) = (c :: cs) ++ '.' :: R := by
            rw [List.cons_append]
          rw [h3, List.drop_append_of_le_length (by simp)]
          have h4 : (c :: cs).length - 1 = cs.length := rfl
          rw [← h4, hx]
          rfl
        rw [List.cons_append]
        rw [substFuel_step_match mNum "<NUM>".data f prev c (cs ++ '.' :: R)
          cs.length hm2 x ('.' :: R) hx2]
        cases f with
        | zero => omega
        | succ f2 =>
          rw [substFuel_step_none mNum "<NUM>".data f2 (some x) '.' R
            (mNum_dot (some x) R)]
          have hih : substFuel mNum "<NUM>".data f2 (some '.') R =
              joinDots ((g2 :: gs2).map fun _ => "<NUM>".data) := by
            apply ih f2 (some '.')
            · intro g3 hg3
              exact hgs g3 (List.mem_cons_of_mem _ hg3)
            · omega
            · rfl
          rw [hih]
          rfl

/-- Digit groups joined by dots are digit-or-dot text. -/
theorem joinDots_all_digitOrDot :
    ∀ gs : List Chars, (∀ g ∈ gs, g.all Char.isDigit = true) →
      (joinDots gs).all digitOrDot = true := by
  intro gs
  induction gs with
  | nil => intro _; rfl
  | cons g tail ih =>
    intro h
    have hgdd : g.all digitOrDot = true := by
      rw [List.all_eq_true]
      intro c hc
      have h2 := List.all_eq_true.mp (h g (List.mem_cons_self g tail)) c hc
      simp [digitOrDot, h2]
    cases tail with
    | nil => exact hgdd
    | cons g2 gs2 =>
      have htail := ih fun x hx => h x (List.mem_cons_of_mem g hx)
      have hj : joinDots (g :: g2 :: gs2) = g ++ '.' :: joinDots (g2 :: gs2) := rfl
      rw [hj, List.all_append, List.all_cons]
      simp [hgdd, htail, digitOrDot]

/-- C1, amended: the standalone-integer rule (rule 3) replaces each digit
group of an IPv4-shaped dotted quad before the IPv4 rule (rule 5) runs, so a
line consisting of such a quad normalizes to `<NUM>.<NUM>.<NUM>.<NUM>`, and
the placeholder `<IP>` never appears in that output. -/
theorem claim_C1 :
    (∀ g1 g2 g3 g4 : Chars,
      g1 ≠ [] → g1.length ≤ 3 → g1.all Char.isDigit = true →
      g2 ≠ [] → g2.length ≤ 3 → g2.all Char.isDigit = true →
      g3 ≠ [] → g3.length ≤ 3 → g3.all Char.isDigit = true →
      g4 ≠ [] → g4.length ≤ 3 → g4.all Char.isDigit = true →
      normalize_message (String.mk (joinDots [g1, g2, g3, g4])) =
        "<NUM>.<NUM>.<NUM>.<NUM>") ∧
    ¬ ("<IP>".data <:+: "<NUM>.<NUM>.<NUM>.<NUM>".data) := by
  constructor
  · intro g1 g2 g3 g4 h1a h1b h1c h2a h2b h2c h3a h3b h3c h4a h4b h4c
    have hmem : ∀ g ∈ [g1, g2, g3, g4], g ≠ [] ∧ g.all Char.isDigit = true := by
      intro g hg
      simp only [List.mem_cons, List.not_mem_nil, or_false] at hg
      rcases hg with rfl | rfl | rfl | rfl
      · exact ⟨h1a, h1c⟩
      · exact ⟨h2a, h2c⟩
      · exact ⟨h3a, h3c⟩
      · exact ⟨h4a, h4c⟩
    have hdig : ∀ g ∈ [g1, g2, g3, g4], g.all Char.isDigit = true :=
      fun g hg => (hmem g hg).2
    have hall : (joinDots [g1, g2, g3, g4]).all digitOrDot = true :=
      joinDots_all_digitOrDot _ hdig
    have e1 : pysub mTimestamp "<TIMESTAMP>".data (joinDots [g1, g2, g3, g4]) =
        joinDots [g1, g2, g3, g4] :=
      substFuel_id_of_none mTimestamp _ digitOrDot mTimestamp_none_of_digitOrDot
        _ none _ hall
    have e2 : pysub mTime "<TIME>".data (joinDots [g1, g2, g3, g4]) =
        joinDots [g1, g2, g3, g4] :=
      substFuel_id_of_none mTime _ digitOrDot mTime_none_of_digitOrDot
        _ none _ hall
    have e3 : pysub mNum "<NUM>".data (joinDots [g1, g2, g3, g4]) =
        joinDots (([g1, g2, g3, g4]).map fun _ => "<NUM>".data) :=
      substFuel_mNum_joinDots [g1, g2, g3, g4] _ none hmem (le_refl _) rfl
    have hdata : (String.mk (joinDots [g1, g2, g3, g4])).data =
        joinDots [g1, g2, g3, g4] := rfl
    simp only [normalize_message, NORMALIZERS, List.foldl_cons, List.foldl_nil,
      hdata, e1, e2, e3, List.map_cons, List.map_nil]
    decide
  · decide

/-- C1, witness: the amended normalization result on the quad `10.0.0.5`. -/
theorem claim_C1_witness :
    normalize_message
        (String.mk (joinDots ["10".data, "0".data, "0".data, "5".data])) =
      "<NUM>.<NUM>.<NUM>.<NUM>" :=
  claim_C1.1 "10".data "0".data "0".data "5".data
    (by decide) (by decide) (by decide) (by decide) (by decide) (by decide)
    (by decide) (by decide) (by decide) (by decide) (by decide) (by decide)

end OptiMaint
